import Mathlib

/-!
Color memory game: the sequence engine of `script.js`.

A shallow embedding of the class `ColorMemoryGame` of `src/script.js`.

* The fields of the class become the fields of the structure `ColorMemoryGame`.
* Every method becomes a function from state to state.  Calls into the DOM, the audio
  pipeline and the console are recorded, in order, in the field `log`.
* `Math.random()`, `Date.now()` and the `data-sound` attribute of a button are inputs of
  the functions that read them.
* `setTimeout(() => this.nextRound(), 1000)` adds one to the field `nextRoundTimers`; the
  timer firing is the function `fireNextRound`.  In the same way
  `setTimeout(() => this.startGame(), 100)` adds one to `startGameTimers` and fires as
  `fireStartGame`.
* `showSequence` is asynchronous: everything up to its first `await` is `showSequence`, the
  code after its loop is `showSequenceEnd`.
* The page is taken to hold a button for every colour that is clicked, so the look-ups in
  `activateButton` succeed; the per-cue highlights and tones of the loop of `showSequence`
  change no field and are left out.
* JavaScript numbers are modelled by integers.  This is exact up to `2 ^ 53` in magnitude;
  `numberToString` also follows `Number.prototype.toString` on the integers from `10 ^ 21`
  on whose decimal expansion is their shortest round-trip representation (such as
  `10 ^ 21` itself).
-/

namespace ColorMemory

/-! ## JavaScript values and built-ins used by the class -/

/-- A value held in one of the two arrays: a string, or `undefined` (here `none`). -/
abbrev Cue := Option String

/-- The number handed to `playSound`: `parseFloat(button.dataset.sound)`. -/
abbrev Frequency := ℚ

/-- Array read `xs[i]` for a non-negative index: `undefined` outside the array. -/
def arrayGet (xs : List Cue) (i : Nat) : Cue :=
  (xs.get? i).join

/-- Array read `xs[i]` for an integer index: `undefined` for a negative index. -/
def arrayGetInt (xs : List Cue) (i : Int) : Cue :=
  if i < 0 then none else arrayGet xs i.toNat

/-- White space and line terminators that `parseInt` skips at the start of its input. -/
def isStrWhiteSpaceChar (c : Char) : Bool :=
  let n := c.toNat
  n = 0x09 || n = 0x0A || n = 0x0B || n = 0x0C || n = 0x0D || n = 0x20 || n = 0xA0 ||
  n = 0x1680 || (0x2000 ≤ n && n ≤ 0x200A) || n = 0x2028 || n = 0x2029 || n = 0x202F ||
  n = 0x205F || n = 0x3000 || n = 0xFEFF

/-- Value of the character as a digit in radix `R`, if it is one. -/
def radixDigit (R : Nat) (c : Char) : Option Nat :=
  let n := c.toNat
  let v : Option Nat :=
    if 48 ≤ n ∧ n ≤ 57 then some (n - 48)
    else if 97 ≤ n ∧ n ≤ 122 then some (n - 97 + 10)
    else if 65 ≤ n ∧ n ≤ 90 then some (n - 65 + 10)
    else none
  v.filter (fun d => d < R)

/-- The integer written by a list of radix-`R` digits. -/
def digitsValue (R : Nat) (Z : List Char) : Nat :=
  Z.foldl (fun acc c => acc * R + (radixDigit R c).getD 0) 0

/-- The global `parseInt(string)` with no radix argument, on a string.  `none` is `NaN`;
the result `-0` is not told apart from `0`. -/
def parseInt (inputString : String) : Option Int :=
  let S := inputString.data.dropWhile isStrWhiteSpaceChar
  let sign : Int := if S.head? = some '-' then -1 else 1
  let S := if S.head? = some '+' ∨ S.head? = some '-' then S.tail else S
  let RS : Nat × List Char :=
    match S with
    | '0' :: 'x' :: rest => (16, rest)
    | '0' :: 'X' :: rest => (16, rest)
    | _ => (10, S)
  let Z := RS.2.takeWhile (fun c => (radixDigit RS.1 c).isSome)
  if Z = [] then none else some (sign * (digitsValue RS.1 Z : Int))

/-- The operator `x || 0` on a number: `NaN` and `0` give `0`. -/
def orZero (x : Option Int) : Int :=
  match x with
  | none => 0
  | some n => if n = 0 then 0 else n

/-- Exponential form used by `Number.prototype.toString` from `10 ^ 21` on: the digits
without trailing zeros, a point after the first one, then the exponent. -/
def exponentForm (m : Nat) : String :=
  let ds := Nat.toDigits 10 m
  let sig := (ds.reverse.dropWhile (fun c => c = '0')).reverse
  match sig with
  | [] => "0"
  | d :: rest =>
    String.mk ((d :: (if rest.isEmpty then [] else '.' :: rest)) ++ ['e', '+'] ++
      Nat.toDigits 10 (ds.length - 1))

/-- The method `toString()` of a number that is an integer. -/
def numberToString (x : Int) : String :=
  if x.natAbs < 10 ^ 21 then toString x
  else (if x < 0 then "-" else "") ++ exponentForm x.natAbs

/-! ## The store (`localStorage`) -/

/-- The browser store: its entries, and whether reading or writing it throws. -/
structure Storage where
  items : List (String × String)
  getItemThrows : Bool
  setItemThrows : Bool
deriving DecidableEq, Repr

/-- Replace the value under `key`, or add the entry when the key is new. -/
def setEntry (key value : String) : List (String × String) → List (String × String)
  | [] => [(key, value)]
  | (k, v) :: rest => if k = key then (key, value) :: rest else (k, v) :: setEntry key value rest

/-- The call `localStorage.getItem(key)`: `none` is `null`, an error is a thrown exception. -/
def Storage.getItem (ls : Storage) (key : String) : Except Unit (Option String) :=
  if ls.getItemThrows then .error () else .ok (ls.items.lookup key)

/-- The call `localStorage.setItem(key, value)`. -/
def Storage.setItem (ls : Storage) (key value : String) : Except Unit Storage :=
  if ls.setItemThrows then .error () else .ok { ls with items := setEntry key value ls.items }

/-- The key under which the best score is kept. -/
def bestScoreKey : String := "colorMemoryBestScore"

/-- The method `loadBestScore`: `parseInt(localStorage.getItem(key)) || 0`, and `0` when
reading throws.  A missing entry is `null`, which `parseInt` reads as the text `null`. -/
def loadBestScore (ls : Storage) : Int :=
  match ls.getItem bestScoreKey with
  | .error _ => 0
  | .ok v => orZero (parseInt (v.getD "null"))

/-! ## The game state -/

/-- A call into the page, the audio pipeline or the console, as the methods make them. -/
inductive Effect where
  | activateButton (color : String)
  | playSound (frequency : Frequency)
  | deactivateButtonAfter (color : String) (ms : Nat)
  | message (text : String)
  | updateDisplay (score bestScore : Int)
  | startBtnNewGame
  | disableButtons
  | enableButtons
  | showGameOverModal (isNewRecord : Bool) (finalScore : Int)
  | hideModal
  | setItem (key value : String)
  | consoleLog (text : String)
deriving DecidableEq

/-- The fields of the class that the game logic reads or writes, the store, whether the
game-over overlay is hidden, the numbers of pending `nextRound` and `startGame` timers and
the calls made so far. -/
structure ColorMemoryGame where
  sequence : List Cue
  playerSequence : List Cue
  score : Int
  bestScore : Int
  isPlaying : Bool
  isShowingSequence : Bool
  lastClickTime : Int
  humanVerified : Bool
  localStorage : Storage
  modalHidden : Bool
  nextRoundTimers : Nat
  startGameTimers : Nat
  log : List Effect
deriving DecidableEq

/-- The array `this.colors`. -/
def colors : List Cue := [some "red", some "blue", some "green", some "yellow"]

/-- The state the constructor leaves, for a given store. -/
def ColorMemoryGame.new (ls : Storage) : ColorMemoryGame :=
  { sequence := []
    playerSequence := []
    score := 0
    bestScore := loadBestScore ls
    isPlaying := false
    isShowingSequence := false
    lastClickTime := 0
    humanVerified := false
    localStorage := ls
    modalHidden := true
    nextRoundTimers := 0
    startGameTimers := 0
    log := [.updateDisplay 0 (loadBestScore ls)] }

/-- Record one call. -/
def ColorMemoryGame.emit (g : ColorMemoryGame) (e : Effect) : ColorMemoryGame :=
  { g with log := g.log ++ [e] }

/-- The method `updateDisplay`. -/
def updateDisplay (g : ColorMemoryGame) : ColorMemoryGame :=
  g.emit (.updateDisplay g.score g.bestScore)

/-- The method `saveBestScore`: `setItem(key, this.bestScore.toString())`; a thrown
exception is logged and swallowed. -/
def saveBestScore (g : ColorMemoryGame) : ColorMemoryGame :=
  let value := numberToString g.bestScore
  let g := g.emit (.setItem bestScoreKey value)
  match g.localStorage.setItem bestScoreKey value with
  | .ok ls => { g with localStorage := ls }
  | .error _ => g.emit (.consoleLog "Could not save high score")

/-- The method `showGameOverModal`. -/
def showGameOverModal (g : ColorMemoryGame) (isNewRecord : Bool) : ColorMemoryGame :=
  { g.emit (.showGameOverModal isNewRecord g.score) with modalHidden := false }

/-- The method `gameOver`. -/
def gameOver (g : ColorMemoryGame) : ColorMemoryGame :=
  let g := { g with isPlaying := false }
  let g := g.emit (.message "Game Over!")
  if g.score > g.bestScore then
    let g := { g with bestScore := g.score }
    let g := saveBestScore g
    let g := updateDisplay g
    showGameOverModal g true
  else
    showGameOverModal g false

/-- The method `addToSequence`, for the value `random` that `Math.random()` returns. -/
def addToSequence (g : ColorMemoryGame) (random : ℚ) : ColorMemoryGame :=
  let randomColor := arrayGetInt colors (Int.floor (random * (colors.length : ℚ)))
  { g with sequence := g.sequence ++ [randomColor] }

/-- The method `showSequence` up to its first `await`. -/
def showSequence (g : ColorMemoryGame) : ColorMemoryGame :=
  let g := { g with isShowingSequence := true }
  let g := g.emit (.message "Watch the sequence...")
  g.emit .disableButtons

/-- The method `showSequence` after its loop has shown the last cue. -/
def showSequenceEnd (g : ColorMemoryGame) : ColorMemoryGame :=
  let g := { g with isShowingSequence := false }
  let g := g.emit (.message "Repeat the sequence!")
  g.emit .enableButtons

/-- The method `nextRound`. -/
def nextRound (g : ColorMemoryGame) (random : ℚ) : ColorMemoryGame :=
  let g := { g with playerSequence := [] }
  let g := addToSequence g random
  showSequence g

/-- The method `startGame`. -/
def startGame (g : ColorMemoryGame) (random : ℚ) : ColorMemoryGame :=
  let g := { g with sequence := [], playerSequence := [], score := 0, isPlaying := true }
  let g := updateDisplay g
  let g := g.emit .startBtnNewGame
  nextRound g random

/-- A pending `setTimeout(() => this.nextRound(), 1000)` fires; nothing happens when no
such timer is pending. -/
def fireNextRound (g : ColorMemoryGame) (random : ℚ) : ColorMemoryGame :=
  if g.nextRoundTimers = 0 then g
  else nextRound { g with nextRoundTimers := g.nextRoundTimers - 1 } random

/-- The method `handleButtonClick`. -/
def handleButtonClick (g : ColorMemoryGame) (color : String) (frequency : Frequency) :
    ColorMemoryGame :=
  if !g.isPlaying || g.isShowingSequence then g
  else
    let g := g.emit (.activateButton color)
    let g := g.emit (.playSound frequency)
    let g := g.emit (.deactivateButtonAfter color 200)
    let g := { g with playerSequence := g.playerSequence ++ [some color] }
    let currentIndex := g.playerSequence.length - 1
    if arrayGet g.playerSequence currentIndex ≠ arrayGet g.sequence currentIndex then
      gameOver g
    else if g.playerSequence.length = g.sequence.length then
      let g := { g with score := g.score + 1 }
      let g := updateDisplay g
      let g := g.emit (.message ("Correct! Score: " ++ numberToString g.score))
      { g with nextRoundTimers := g.nextRoundTimers + 1 }
    else g

/-! ## The input gate -/

/-- The closure `rateLimitCheck`, for the value `now` that `Date.now()` returns. -/
def rateLimitCheck (g : ColorMemoryGame) (now : Int) : Bool × ColorMemoryGame :=
  if now - g.lastClickTime < 100 then (false, g)
  else (true, { g with lastClickTime := now })

/-- The closure `verifyHuman`. -/
def verifyHuman (g : ColorMemoryGame) : ColorMemoryGame :=
  { g with humanVerified := true }

/-- The click listener of the start button. -/
def onStartClick (g : ColorMemoryGame) (now : Int) (random : ℚ) : ColorMemoryGame :=
  let (ok, g) := rateLimitCheck g now
  if ok then startGame g random else g

/-- The click listener of a colour button with the given `data-color` and `data-sound`. -/
def onColorClick (g : ColorMemoryGame) (now : Int) (color : String) (sound : Frequency) :
    ColorMemoryGame :=
  let (ok, g) := rateLimitCheck g now
  if ok && g.humanVerified then handleButtonClick g color sound else g

/-- The keydown listener of a colour button. -/
def onColorKeydown (g : ColorMemoryGame) (now : Int) (key : String) (color : String)
    (sound : Frequency) : ColorMemoryGame :=
  if key = "Enter" ∨ key = " " then
    let (ok, g) := rateLimitCheck g now
    if ok then handleButtonClick g color sound else g
  else g

/-- The method `closeModal`. -/
def closeModal (g : ColorMemoryGame) : ColorMemoryGame :=
  let g := { g.emit .hideModal with modalHidden := true }
  g.emit (.message "Click Start to Begin!")

/-- The method `closeModalAndRestart`, which is the click listener of the Play Again
button: `closeModal()`, then `setTimeout(() => this.startGame(), 100)`. -/
def closeModalAndRestart (g : ColorMemoryGame) : ColorMemoryGame :=
  let g := closeModal g
  { g with startGameTimers := g.startGameTimers + 1 }

/-- A pending `setTimeout(() => this.startGame(), 100)` fires; nothing happens when no such
timer is pending. -/
def fireStartGame (g : ColorMemoryGame) (random : ℚ) : ColorMemoryGame :=
  if g.startGameTimers = 0 then g
  else startGame { g with startGameTimers := g.startGameTimers - 1 } random

/-- The object `keyMap` of `handleKeyboard`. -/
def keyMap (key : String) : Option String :=
  if key = "q" ∨ key = "1" then some "red"
  else if key = "w" ∨ key = "2" then some "blue"
  else if key = "a" ∨ key = "3" then some "green"
  else if key = "s" ∨ key = "4" then some "yellow"
  else none

/-- The method `handleKeyboard`; `sound` gives the `data-sound` of the button of a colour. -/
def handleKeyboard (g : ColorMemoryGame) (now : Int) (key : String)
    (sound : String → Frequency) : ColorMemoryGame :=
  if key = "Escape" ∧ !g.modalHidden then closeModal g
  else if !g.isPlaying || g.isShowingSequence then g
  else
    match keyMap key.toLower with
    | none => g
    | some color =>
      let (ok, g) := rateLimitCheck g now
      if ok then handleButtonClick g color (sound color) else g

/-! ## Runs of the game -/

/-- What can happen to a game between two states: a method is called, a timer fires or the
presentation ends. -/
inductive Event where
  | startGame (random : ℚ)
  | nextRound (random : ℚ)
  | showSequenceEnd
  | handleButtonClick (color : String) (frequency : Frequency)

/-- The state after one event. -/
def step (g : ColorMemoryGame) : Event → ColorMemoryGame
  | .startGame random => startGame g random
  | .nextRound random => nextRound g random
  | .showSequenceEnd => showSequenceEnd g
  | .handleButtonClick color frequency => handleButtonClick g color frequency

/-- The state after a list of events, in order. -/
def run (g : ColorMemoryGame) (events : List Event) : ColorMemoryGame :=
  events.foldl step g

/-- Whether the event is a call of `startGame`. -/
def Event.isStartGame : Event → Bool
  | .startGame _ => true
  | _ => false

/-- The player clicks the given colours in order; `sound` gives the `data-sound` of the
button of a colour. -/
def submitAll (g : ColorMemoryGame) (sound : String → Frequency) (inputs : List String) :
    ColorMemoryGame :=
  inputs.foldl (fun s color => handleButtonClick s color (sound color)) g

/-- One correct round: the presentation ends, the player clicks every element of the
current sequence in order, and a pending `nextRound` timer fires. -/
def playRound (g : ColorMemoryGame) (sound : String → Frequency) (random : ℚ) :
    ColorMemoryGame :=
  let g := showSequenceEnd g
  let g := submitAll g sound (g.sequence.filterMap id)
  fireNextRound g random

/-- Successive correct rounds, one random draw for each. -/
def playRounds (g : ColorMemoryGame) (sound : String → Frequency) :
    List ℚ → ColorMemoryGame
  | [] => g
  | random :: rest => playRounds (playRound g sound random) sound rest

/-! ## Auxiliary definitions for the statements -/

/-- The writes to the store recorded in a log, in order. -/
def storeWrites (log : List Effect) : List (String × String) :=
  log.filterMap (fun e => match e with
    | .setItem key value => some (key, value)
    | _ => none)

/-- The state of `handleButtonClick` right after `this.playerSequence.push(color)`. -/
def afterPush (g : ColorMemoryGame) (color : String) (frequency : Frequency) :
    ColorMemoryGame :=
  { (((g.emit (.activateButton color)).emit (.playSound frequency)).emit
      (.deactivateButtonAfter color 200)) with
    playerSequence := g.playerSequence ++ [some color] }

/-- The freshly loaded value is persisted: `bestScore` is set to `loadBestScore()` and
`saveBestScore()` is called. -/
def saveLoaded (g : ColorMemoryGame) : ColorMemoryGame :=
  saveBestScore { g with bestScore := loadBestScore g.localStorage }

/-- A working store with no entry. -/
def emptyStore : Storage :=
  { items := [], getItemThrows := false, setItemThrows := false }

/-- A working store whose only entry is the given text under the best-score key. -/
def storeWith (value : String) : Storage :=
  { items := [(bestScoreKey, value)], getItemThrows := false, setItemThrows := false }

/-- A game in its collecting phase with the sequence red, blue and nothing entered yet. -/
def redBlueGame : ColorMemoryGame :=
  { ColorMemoryGame.new emptyStore with
    sequence := [some "red", some "blue"]
    isPlaying := true }

/-- A pointer has moved, the start button is clicked at time 1000 and the first cue is red,
the presentation ends, and a click on blue is accepted at time 5000: the game is over and
the overlay is shown. -/
def gameOverAt5000 : ColorMemoryGame :=
  onColorClick (showSequenceEnd (onStartClick (verifyHuman (ColorMemoryGame.new emptyStore))
    1000 0)) 5000 "blue" 330

/-- While a game is being played the input entered so far is an initial part of the
sequence; in any state the input is at most one element longer than the sequence. -/
def Inv (g : ColorMemoryGame) : Prop :=
  (g.isPlaying = true → g.playerSequence <+: g.sequence) ∧
    g.playerSequence.length ≤ g.sequence.length + 1

/-- The state between two rounds, after `k` completed rounds. -/
def BetweenRounds (g : ColorMemoryGame) (k : Nat) : Prop :=
  g.isPlaying = true ∧ g.playerSequence = [] ∧
    (∃ strs : List String, g.sequence = strs.map some ∧ strs.length = k + 1) ∧
    g.score = k

/-- The character is one of `0` to `9`. -/
def IsDecDigit (c : Char) : Prop := 48 ≤ c.toNat ∧ c.toNat ≤ 57

/-- The text has no number at its start: after leading white space it is empty or begins
with a character that is neither a sign nor a decimal digit. -/
def startsWithoutNumber (s : String) : Bool :=
  match (s.data.dropWhile isStrWhiteSpaceChar).head? with
  | none => true
  | some c => c != '+' && c != '-' && (radixDigit 10 c).isNone

/-! ## Basic facts about the methods -/

section fields

variable (g : ColorMemoryGame)

@[simp] theorem saveBestScore_sequence : (saveBestScore g).sequence = g.sequence := by
  unfold saveBestScore; dsimp only; split <;> rfl

@[simp] theorem saveBestScore_playerSequence :
    (saveBestScore g).playerSequence = g.playerSequence := by
  unfold saveBestScore; dsimp only; split <;> rfl

@[simp] theorem saveBestScore_score : (saveBestScore g).score = g.score := by
  unfold saveBestScore; dsimp only; split <;> rfl

@[simp] theorem saveBestScore_bestScore : (saveBestScore g).bestScore = g.bestScore := by
  unfold saveBestScore; dsimp only; split <;> rfl

@[simp] theorem saveBestScore_isPlaying : (saveBestScore g).isPlaying = g.isPlaying := by
  unfold saveBestScore; dsimp only; split <;> rfl

@[simp] theorem saveBestScore_isShowingSequence :
    (saveBestScore g).isShowingSequence = g.isShowingSequence := by
  unfold saveBestScore; dsimp only; split <;> rfl

@[simp] theorem saveBestScore_nextRoundTimers :
    (saveBestScore g).nextRoundTimers = g.nextRoundTimers := by
  unfold saveBestScore; dsimp only; split <;> rfl

@[simp] theorem saveBestScore_lastClickTime :
    (saveBestScore g).lastClickTime = g.lastClickTime := by
  unfold saveBestScore; dsimp only; split <;> rfl

theorem saveBestScore_storeWrites :
    storeWrites (saveBestScore g).log =
      storeWrites g.log ++ [(bestScoreKey, numberToString g.bestScore)] := by
  unfold saveBestScore; dsimp only
  split <;> simp [storeWrites, ColorMemoryGame.emit, List.filterMap_append]

@[simp] theorem gameOver_isPlaying : (gameOver g).isPlaying = false := by
  unfold gameOver; dsimp only; split <;> simp [showGameOverModal, updateDisplay,
    ColorMemoryGame.emit]

@[simp] theorem gameOver_sequence : (gameOver g).sequence = g.sequence := by
  unfold gameOver; dsimp only; split <;> simp [showGameOverModal, updateDisplay,
    ColorMemoryGame.emit]

@[simp] theorem gameOver_playerSequence : (gameOver g).playerSequence = g.playerSequence := by
  unfold gameOver; dsimp only; split <;> simp [showGameOverModal, updateDisplay,
    ColorMemoryGame.emit]

@[simp] theorem gameOver_score : (gameOver g).score = g.score := by
  unfold gameOver; dsimp only; split <;> simp [showGameOverModal, updateDisplay,
    ColorMemoryGame.emit]

@[simp] theorem gameOver_isShowingSequence :
    (gameOver g).isShowingSequence = g.isShowingSequence := by
  unfold gameOver; dsimp only; split <;> simp [showGameOverModal, updateDisplay,
    ColorMemoryGame.emit]

@[simp] theorem gameOver_nextRoundTimers :
    (gameOver g).nextRoundTimers = g.nextRoundTimers := by
  unfold gameOver; dsimp only; split <;> simp [showGameOverModal, updateDisplay,
    ColorMemoryGame.emit]

theorem gameOver_bestScore_eq : (gameOver g).bestScore = max g.bestScore g.score := by
  unfold gameOver; dsimp only [ColorMemoryGame.emit]
  split
  · next h =>
    simp [showGameOverModal, updateDisplay, ColorMemoryGame.emit]
    exact le_of_lt h
  · next h =>
    simp [showGameOverModal, ColorMemoryGame.emit]
    exact le_of_not_lt h

end fields


/-! ## The cases of `handleButtonClick` -/

theorem arrayGet_append_singleton (xs : List Cue) (x : Cue) :
    arrayGet (xs ++ [x]) ((xs ++ [x]).length - 1) = x := by
  simp [arrayGet]

theorem arrayGet_extends_input {ps seq : List Cue} {c : String} (hpre : ps <+: seq)
    (h : some c = arrayGet seq ps.length) : ps ++ [some c] <+: seq := by
  obtain ⟨t, rfl⟩ := hpre
  cases t with
  | nil => simp [arrayGet] at h
  | cons x t =>
    have hx : arrayGet (ps ++ x :: t) ps.length = x := by
      unfold arrayGet
      rw [List.get?_eq_getElem?, List.getElem?_append_right (le_refl _)]
      simp
    rw [hx] at h
    subst h
    exact ⟨t, by simp⟩

/-- The click is accepted: what `handleButtonClick` does past its guard. -/
theorem handleButtonClick_accepted (g : ColorMemoryGame) (color : String)
    (frequency : Frequency) (hp : g.isPlaying = true) (hs : g.isShowingSequence = false) :
    handleButtonClick g color frequency =
      if some color ≠ arrayGet g.sequence g.playerSequence.length then
        gameOver (afterPush g color frequency)
      else if g.playerSequence.length + 1 = g.sequence.length then
        { ((updateDisplay { afterPush g color frequency with score := g.score + 1 }).emit
            (.message ("Correct! Score: " ++ numberToString (g.score + 1)))) with
          nextRoundTimers := g.nextRoundTimers + 1 }
      else afterPush g color frequency := by
  unfold handleButtonClick
  simp only [hp, hs, Bool.not_true, Bool.or_self, Bool.false_eq_true, if_false]
  have h1 : arrayGet (g.playerSequence ++ [some color])
      ((g.playerSequence ++ [some color]).length - 1) = some color :=
    arrayGet_append_singleton _ _
  simp only [ColorMemoryGame.emit, afterPush, updateDisplay, h1]
  simp only [List.length_append, List.length_singleton, Nat.add_sub_cancel]


/-! ## Invariant of the runs -/

theorem inv_new (ls : Storage) : Inv (ColorMemoryGame.new ls) := by
  simp [Inv, ColorMemoryGame.new]

theorem inv_nextRound (g : ColorMemoryGame) (r : ℚ) : Inv (nextRound g r) := by
  simp [Inv, nextRound, addToSequence, showSequence, ColorMemoryGame.emit]

theorem inv_startGame (g : ColorMemoryGame) (r : ℚ) : Inv (startGame g r) := by
  simp [Inv, startGame, nextRound, addToSequence, showSequence, ColorMemoryGame.emit,
    updateDisplay]

theorem inv_showSequenceEnd (g : ColorMemoryGame) (h : Inv g) : Inv (showSequenceEnd g) := by
  simpa [Inv, showSequenceEnd, ColorMemoryGame.emit] using h

theorem inv_handleButtonClick (g : ColorMemoryGame) (color : String) (frequency : Frequency)
    (h : Inv g) : Inv (handleButtonClick g color frequency) := by
  by_cases hg : g.isPlaying = true ∧ g.isShowingSequence = false
  · obtain ⟨hp, hs⟩ := hg
    have hpre := h.1 hp
    rw [handleButtonClick_accepted g color frequency hp hs]
    split
    · constructor
      · simp
      · simp only [gameOver_playerSequence, gameOver_sequence, afterPush, ColorMemoryGame.emit,
          List.length_append, List.length_singleton]
        have := hpre.length_le
        omega
    · next hm =>
      have hm2 : some color = arrayGet g.sequence g.playerSequence.length := by
        by_contra hne
        exact hm hne
      have hpre2 := arrayGet_extends_input hpre hm2
      split
      · refine ⟨fun _ => ?_, ?_⟩
        · simpa [afterPush, ColorMemoryGame.emit, updateDisplay] using hpre2
        · have := hpre2.length_le
          simp only [afterPush, ColorMemoryGame.emit, updateDisplay]
          omega
      · refine ⟨fun _ => ?_, ?_⟩
        · simpa [afterPush, ColorMemoryGame.emit] using hpre2
        · have := hpre2.length_le
          simp only [afterPush, ColorMemoryGame.emit]
          omega
  · have hg2 : g.isPlaying = false ∨ g.isShowingSequence = true := by
      cases hp : g.isPlaying <;> cases hs : g.isShowingSequence <;> simp_all
    have : handleButtonClick g color frequency = g := by
      unfold handleButtonClick
      rcases hg2 with h1 | h1 <;> simp [h1]
    rw [this]; exact h

theorem inv_step (g : ColorMemoryGame) (e : Event) (h : Inv g) : Inv (step g e) := by
  cases e with
  | startGame r => exact inv_startGame g r
  | nextRound r => exact inv_nextRound g r
  | showSequenceEnd => exact inv_showSequenceEnd g h
  | handleButtonClick c f => exact inv_handleButtonClick g c f h

theorem inv_run (events : List Event) : ∀ g : ColorMemoryGame, Inv g → Inv (run g events) := by
  induction events with
  | nil => intro g h; exact h
  | cons e es ih => intro g h; exact ih (step g e) (inv_step g e h)


/-! ## Evaluation at the draw `0` -/

theorem addToSequence_zero (g : ColorMemoryGame) :
    addToSequence g 0 = { g with sequence := g.sequence ++ [some "red"] } := by
  simp [addToSequence, arrayGetInt, arrayGet, colors]

theorem handleButtonClick_of_guard (g : ColorMemoryGame) (color : String)
    (frequency : Frequency) (h : g.isPlaying = false ∨ g.isShowingSequence = true) :
    handleButtonClick g color frequency = g := by
  unfold handleButtonClick
  rcases h with h | h <;> simp [h]

theorem handleButtonClick_score_cases (g : ColorMemoryGame) (color : String)
    (frequency : Frequency) :
    (handleButtonClick g color frequency).score = g.score ∨
      ((handleButtonClick g color frequency).score = g.score + 1 ∧
        g.isPlaying = true ∧
        some color = arrayGet g.sequence g.playerSequence.length ∧
        g.playerSequence.length + 1 = g.sequence.length ∧
        (handleButtonClick g color frequency).playerSequence =
          g.playerSequence ++ [some color] ∧
        (handleButtonClick g color frequency).sequence = g.sequence) := by
  by_cases hg : g.isPlaying = true ∧ g.isShowingSequence = false
  · obtain ⟨hp, hs⟩ := hg
    rw [handleButtonClick_accepted g color frequency hp hs]
    split
    · left
      rw [gameOver_score]
      rfl
    · next hm =>
      have hm2 : some color = arrayGet g.sequence g.playerSequence.length := by
        by_contra hne
        exact hm hne
      split
      · next hlen => exact Or.inr ⟨rfl, hp, hm2, hlen, rfl, rfl⟩
      · exact Or.inl rfl
  · have hg2 : g.isPlaying = false ∨ g.isShowingSequence = true := by
      cases hp : g.isPlaying <;> cases hs : g.isShowingSequence <;> simp_all
    rw [handleButtonClick_of_guard g color frequency hg2]
    exact Or.inl rfl

theorem lookup_setEntry (key value : String) (items : List (String × String)) :
    (setEntry key value items).lookup key = some value := by
  induction items with
  | nil => simp [setEntry, List.lookup]
  | cons kv rest ih =>
    obtain ⟨k, v⟩ := kv
    unfold setEntry
    split
    · simp [List.lookup]
    · next hne =>
      have hne2 : (key == k) = false := by
        simp only [beq_eq_false_iff_ne, ne_eq]
        exact fun h => hne h.symm
      simp [List.lookup, hne2, ih]

theorem setEntry_idem (key value : String) (items : List (String × String)) :
    setEntry key value (setEntry key value items) = setEntry key value items := by
  induction items with
  | nil => simp [setEntry]
  | cons kv rest ih =>
    obtain ⟨k, v⟩ := kv
    by_cases h : k = key
    · simp [setEntry, h]
    · simp [setEntry, h, ih]

theorem gameOver_log_getLast (g : ColorMemoryGame) :
    (gameOver g).log.getLast? =
      some (.showGameOverModal (decide (g.bestScore < g.score)) g.score) := by
  unfold gameOver; dsimp only [ColorMemoryGame.emit]
  split
  · next h =>
    have h2 : g.bestScore < g.score := h
    simp [showGameOverModal, updateDisplay, ColorMemoryGame.emit, h2]
  · next h =>
    have h2 : ¬ g.bestScore < g.score := h
    simp [showGameOverModal, ColorMemoryGame.emit, h2]

theorem gameOver_storeWrites (g : ColorMemoryGame) :
    storeWrites (gameOver g).log =
      storeWrites g.log ++
        (if g.bestScore < g.score then [(bestScoreKey, numberToString g.score)] else []) := by
  unfold gameOver; dsimp only [ColorMemoryGame.emit]
  split
  · next h =>
    have h2 : g.bestScore < g.score := h
    simp only [showGameOverModal, updateDisplay, ColorMemoryGame.emit, h2, if_true]
    simp only [storeWrites, List.filterMap_append]
    have := saveBestScore_storeWrites
      { g with isPlaying := false, log := g.log ++ [.message "Game Over!"],
               bestScore := g.score }
    simp only [storeWrites, List.filterMap_append] at this
    rw [this]
    simp
  · next h =>
    have h2 : ¬ g.bestScore < g.score := h
    simp [showGameOverModal, ColorMemoryGame.emit, h2, storeWrites, List.filterMap_append]

theorem gameOver_localStorage_of_record (g : ColorMemoryGame) (h : g.bestScore < g.score)
    (hw : g.localStorage.setItemThrows = false) :
    (gameOver g).localStorage.items.lookup bestScoreKey = some (numberToString g.score) := by
  unfold gameOver; dsimp only [ColorMemoryGame.emit]
  have h2 : g.score > g.bestScore := h
  simp only [h2, if_true, showGameOverModal, updateDisplay, ColorMemoryGame.emit,
    saveBestScore, Storage.setItem, hw, Bool.false_eq_true, if_false]
  exact lookup_setEntry _ _ _

theorem gameOver_localStorage_of_no_record (g : ColorMemoryGame) (h : ¬ g.bestScore < g.score) :
    (gameOver g).localStorage = g.localStorage := by
  unfold gameOver; dsimp only [ColorMemoryGame.emit]
  have h2 : ¬ g.score > g.bestScore := h
  simp only [h2, if_false, showGameOverModal, ColorMemoryGame.emit]

theorem step_not_playing (g : ColorMemoryGame) (e : Event) (hp : g.isPlaying = false)
    (he : e.isStartGame = false) : (step g e).isPlaying = false := by
  cases e with
  | startGame r => simp [Event.isStartGame] at he
  | nextRound r => exact hp
  | showSequenceEnd => exact hp
  | handleButtonClick c f =>
    show (handleButtonClick g c f).isPlaying = false
    rw [handleButtonClick_of_guard g c f (Or.inl hp)]
    exact hp

theorem run_not_playing (events : List Event) :
    ∀ g : ColorMemoryGame, g.isPlaying = false →
      (∀ e ∈ events, e.isStartGame = false) → (run g events).isPlaying = false := by
  induction events with
  | nil => intro g hp _; exact hp
  | cons e es ih =>
    intro g hp he
    exact ih (step g e) (step_not_playing g e hp (he e (List.mem_cons_self _ _)))
      (fun e1 h1 => he e1 (List.mem_cons_of_mem _ h1))

theorem floor_index_bounds (r : ℚ) (h0 : 0 ≤ r) (h1 : r < 1) :
    0 ≤ Int.floor (r * (colors.length : ℚ)) ∧
      Int.floor (r * (colors.length : ℚ)) < (colors.length : Int) := by
  have hlen : (colors.length : ℚ) = 4 := by simp [colors]
  constructor
  · apply Int.floor_nonneg.mpr
    rw [hlen]; positivity
  · apply Int.floor_lt.mpr
    rw [hlen]
    have : ((colors.length : Int) : ℚ) = 4 := by simp [colors]
    rw [this]; linarith

theorem randomColor_mem (r : ℚ) (h0 : 0 ≤ r) (h1 : r < 1) :
    ∃ c, c ∈ ["red", "blue", "green", "yellow"] ∧
      arrayGetInt colors (Int.floor (r * (colors.length : ℚ))) = some c := by
  obtain ⟨hlo, hhi⟩ := floor_index_bounds r h0 h1
  generalize Int.floor (r * (colors.length : ℚ)) = i at hlo hhi
  have h4 : (colors.length : Int) = 4 := by simp [colors]
  rw [h4] at hhi
  interval_cases i <;> simp [arrayGetInt, arrayGet, colors]

theorem filterMap_id_map_some (strs : List String) :
    (strs.map some).filterMap id = strs := by
  induction strs with
  | nil => rfl
  | cons c rest ih => simp [List.filterMap_cons, ih]

theorem arrayGet_append_cons (ps : List Cue) (x : Cue) (t : List Cue) :
    arrayGet (ps ++ x :: t) ps.length = x := by
  unfold arrayGet
  rw [List.get?_eq_getElem?, List.getElem?_append_right (le_refl _)]
  simp

/-- Clicking the rest of the sequence, in order, completes the round. -/
theorem submitAll_completes (sound : String → Frequency) (suf : List String) :
    ∀ g : ColorMemoryGame, g.isPlaying = true → g.isShowingSequence = false →
      g.sequence = g.playerSequence ++ suf.map some → suf ≠ [] →
      (submitAll g sound suf).sequence = g.sequence ∧
        (submitAll g sound suf).playerSequence = g.sequence ∧
        (submitAll g sound suf).score = g.score + 1 ∧
        (submitAll g sound suf).nextRoundTimers = g.nextRoundTimers + 1 ∧
        (submitAll g sound suf).isPlaying = true := by
  induction suf with
  | nil => intro g _ _ _ h; exact absurd rfl h
  | cons c rest ih =>
    intro g hp hs hseq _
    have hget : arrayGet g.sequence g.playerSequence.length = some c := by
      rw [hseq]; exact arrayGet_append_cons _ _ _
    have hlen : g.sequence.length = g.playerSequence.length + 1 + rest.length := by
      rw [hseq]; simp; omega
    have hstep : submitAll g sound (c :: rest) =
        submitAll (handleButtonClick g c (sound c)) sound rest := rfl
    rw [hstep, handleButtonClick_accepted g c (sound c) hp hs, hget]
    simp only [ne_eq, not_true_eq_false, if_false]
    cases rest with
    | nil =>
      have h1 : g.playerSequence.length + 1 = g.sequence.length := by simp at hlen; omega
      rw [if_pos h1]
      refine ⟨rfl, ?_, rfl, rfl, hp⟩
      show g.playerSequence ++ [some c] = g.sequence
      rw [hseq]; rfl
    | cons d rest2 =>
      have h1 : ¬ g.playerSequence.length + 1 = g.sequence.length := by
        simp at hlen; omega
      rw [if_neg h1]
      have hnext := ih (afterPush g c (sound c)) hp hs
        (by simp [afterPush, ColorMemoryGame.emit, hseq]) (by simp)
      exact hnext

theorem betweenRounds_startGame (g : ColorMemoryGame) (r : ℚ) (h0 : 0 ≤ r) (h1 : r < 1) :
    BetweenRounds (startGame g r) 0 := by
  obtain ⟨c, _, hget⟩ := randomColor_mem r h0 h1
  refine ⟨rfl, rfl, ⟨[c], ?_, rfl⟩, rfl⟩
  simp [startGame, nextRound, addToSequence, showSequence, ColorMemoryGame.emit,
    updateDisplay, hget]

theorem betweenRounds_playRound (g : ColorMemoryGame) (sound : String → Frequency) (r : ℚ)
    (k : Nat) (h0 : 0 ≤ r) (h1 : r < 1) (h : BetweenRounds g k) :
    BetweenRounds (playRound g sound r) (k + 1) := by
  obtain ⟨hp, hps, ⟨strs, hseq, hlen⟩, hscore⟩ := h
  obtain ⟨c, _, hget⟩ := randomColor_mem r h0 h1
  have hne : strs ≠ [] := by
    intro h; rw [h] at hlen; simp at hlen
  have hsub := submitAll_completes sound strs (showSequenceEnd g) hp rfl
    (by simp [showSequenceEnd, ColorMemoryGame.emit, hps, hseq]) hne
  have hinputs : (showSequenceEnd g).sequence.filterMap id = strs := by
    show g.sequence.filterMap id = strs
    rw [hseq]; exact filterMap_id_map_some strs
  obtain ⟨hs1, _, hs3, hs4, hs5⟩ := hsub
  have ht : (submitAll (showSequenceEnd g) sound strs).nextRoundTimers ≠ 0 := by
    rw [hs4]; omega
  have hround : playRound g sound r =
      nextRound { submitAll (showSequenceEnd g) sound strs with
        nextRoundTimers := (submitAll (showSequenceEnd g) sound strs).nextRoundTimers - 1 } r := by
    unfold playRound
    simp only [hinputs]
    unfold fireNextRound
    rw [if_neg ht]
  rw [hround]
  refine ⟨hs5, rfl, ⟨strs ++ [c], ?_, by simp [hlen]⟩, ?_⟩
  · simp only [nextRound, addToSequence, showSequence, ColorMemoryGame.emit, hget, hs1]
    show g.sequence ++ [some c] = _
    rw [hseq]; simp
  · show (submitAll (showSequenceEnd g) sound strs).score = _
    rw [hs3]
    show g.score + 1 = _
    rw [hscore]; push_cast; rfl

theorem betweenRounds_playRounds (sound : String → Frequency) (rs : List ℚ) :
    ∀ (g : ColorMemoryGame) (k : Nat), BetweenRounds g k →
      (∀ r ∈ rs, 0 ≤ r ∧ r < 1) → BetweenRounds (playRounds g sound rs) (k + rs.length) := by
  induction rs with
  | nil => intro g k h _; exact h
  | cons r rest ih =>
    intro g k h hr
    have hr0 := hr r (List.mem_cons_self _ _)
    have h1 := betweenRounds_playRound g sound r k hr0.1 hr0.2 h
    have h2 := ih (playRound g sound r) (k + 1) h1 (fun x hx => hr x (List.mem_cons_of_mem _ hx))
    have he : k + (r :: rest).length = k + 1 + rest.length := by simp; omega
    rw [he]
    exact h2

/-! ## `parseInt` on what `toString` writes -/

theorem digitChar_toNat (d : Nat) (h : d < 10) : (Nat.digitChar d).toNat = 48 + d := by
  interval_cases d <;> rfl

theorem radixDigit_ten (c : Char) (h : IsDecDigit c) :
    radixDigit 10 c = some (c.toNat - 48) := by
  obtain ⟨h1, h2⟩ := h
  unfold radixDigit
  simp only [h1, h2, and_self, if_true]
  have : c.toNat - 48 < 10 := by omega
  simp [Option.filter, this]

theorem isDecDigit_digitChar (d : Nat) (h : d < 10) : IsDecDigit (Nat.digitChar d) := by
  unfold IsDecDigit
  rw [digitChar_toNat d h]; omega

theorem toDigitsCore_spec (fuel : Nat) :
    ∀ (n : Nat) (ds : List Char), n < fuel →
      ∃ hd : List Char, Nat.toDigitsCore 10 fuel n ds = hd ++ ds ∧ hd ≠ [] ∧
        (∀ c ∈ hd, IsDecDigit c) ∧
        ∀ acc : Nat, hd.foldl (fun a c => a * 10 + (radixDigit 10 c).getD 0) acc =
          acc * 10 ^ hd.length + n := by
  induction fuel with
  | zero => intro n ds h; omega
  | succ fuel ih =>
    intro n ds hn
    have hd10 : n % 10 < 10 := Nat.mod_lt _ (by norm_num)
    have hval : (radixDigit 10 (Nat.digitChar (n % 10))).getD 0 = n % 10 := by
      rw [radixDigit_ten _ (isDecDigit_digitChar _ hd10), digitChar_toNat _ hd10]
      simp
    unfold Nat.toDigitsCore
    dsimp only
    split
    · next hz =>
      refine ⟨[Nat.digitChar (n % 10)], rfl, by simp, ?_, ?_⟩
      · intro c hc
        simp only [List.mem_singleton] at hc
        rw [hc]; exact isDecDigit_digitChar _ hd10
      · intro acc
        simp only [List.foldl, hval, List.length_singleton, pow_one]
        omega
    · next hz =>
      have hlt : n / 10 < fuel := by omega
      obtain ⟨hd, heq, _, hdig, hfold⟩ := ih (n / 10) (Nat.digitChar (n % 10) :: ds) hlt
      refine ⟨hd ++ [Nat.digitChar (n % 10)], ?_, by simp, ?_, ?_⟩
      · rw [heq]; simp
      · intro c hc
        rcases List.mem_append.mp hc with h | h
        · exact hdig c h
        · simp only [List.mem_singleton] at h
          rw [h]; exact isDecDigit_digitChar _ hd10
      · intro acc
        rw [List.foldl_append, hfold acc]
        simp only [List.foldl, hval, List.length_append, List.length_singleton, pow_succ]
        have := Nat.div_add_mod n 10
        nlinarith

theorem toDigits_spec (n : Nat) :
    Nat.toDigits 10 n ≠ [] ∧ (∀ c ∈ Nat.toDigits 10 n, IsDecDigit c) ∧
      digitsValue 10 (Nat.toDigits 10 n) = n := by
  obtain ⟨hd, heq, hne, hdig, hfold⟩ := toDigitsCore_spec (n + 1) n [] (Nat.lt_succ_self n)
  have h : Nat.toDigits 10 n = hd := by
    unfold Nat.toDigits; rw [heq]; simp
  rw [h]
  refine ⟨hne, hdig, ?_⟩
  unfold digitsValue
  rw [hfold 0]; simp

theorem not_whiteSpace_of_digit (c : Char) (h : IsDecDigit c) :
    isStrWhiteSpaceChar c = false := by
  obtain ⟨h1, h2⟩ := h
  unfold isStrWhiteSpaceChar
  simp only [Bool.or_eq_false_iff, decide_eq_false_iff_not, Bool.and_eq_false_imp,
    decide_eq_true_eq]
  omega

/-- What `parseInt` does with its input once white space and sign are gone, when what is
left is a non-empty run of decimal digits. -/
theorem parseInt_tail_digits (L : List Char) (hne : L ≠ []) (hdig : ∀ c ∈ L, IsDecDigit c) :
    (match L with
      | '0' :: 'x' :: rest => ((16 : Nat), rest)
      | '0' :: 'X' :: rest => (16, rest)
      | _ => (10, L)) = (10, L) ∧
    L.takeWhile (fun c => (radixDigit 10 c).isSome) = L := by
  constructor
  · split
    · next rest =>
      have := hdig 'x' (by simp)
      exact absurd this (by unfold IsDecDigit; decide)
    · next rest =>
      have := hdig 'X' (by simp)
      exact absurd this (by unfold IsDecDigit; decide)
    · rfl
  · rw [List.takeWhile_eq_self_iff]
    intro c hc
    rw [radixDigit_ten c (hdig c hc)]; rfl

theorem parseInt_digits (L : List Char) (hne : L ≠ []) (hdig : ∀ c ∈ L, IsDecDigit c) :
    parseInt (String.mk L) = some (digitsValue 10 L : Int) := by
  obtain ⟨hm, htw⟩ := parseInt_tail_digits L hne hdig
  cases L with
  | nil => exact absurd rfl hne
  | cons c t =>
    have hc := hdig c (by simp)
    have hws := not_whiteSpace_of_digit c hc
    have hminus : c ≠ '-' := by
      intro h; rw [h] at hc; exact absurd hc (by unfold IsDecDigit; decide)
    have hplus : c ≠ '+' := by
      intro h; rw [h] at hc; exact absurd hc (by unfold IsDecDigit; decide)
    unfold parseInt
    simp only [List.dropWhile, hws, List.head?, Option.some.injEq, hminus, hplus, or_self,
      if_false, hm, htw]
    simp

theorem parseInt_minus_digits (L : List Char) (hne : L ≠ []) (hdig : ∀ c ∈ L, IsDecDigit c) :
    parseInt (String.mk ('-' :: L)) = some (-(digitsValue 10 L : Int)) := by
  obtain ⟨hm, htw⟩ := parseInt_tail_digits L hne hdig
  have hws : isStrWhiteSpaceChar '-' = false := by decide
  unfold parseInt
  simp only [List.dropWhile, hws, List.head?, or_true, if_true, List.tail, hm, htw]
  simp [hne]

theorem parseInt_toString_nat (n : Nat) : parseInt (toString n) = some (n : Int) := by
  obtain ⟨hne, hdig, hval⟩ := toDigits_spec n
  have h : toString n = String.mk (Nat.toDigits 10 n) := rfl
  rw [h, parseInt_digits _ hne hdig, hval]

theorem parseInt_toString_int (k : Int) : parseInt (toString k) = some k := by
  cases k with
  | ofNat n => exact parseInt_toString_nat n
  | negSucc n =>
    obtain ⟨hne, hdig, hval⟩ := toDigits_spec (n + 1)
    have h : toString (Int.negSucc n) = String.mk ('-' :: Nat.toDigits 10 (n + 1)) := rfl
    rw [h, parseInt_minus_digits _ hne hdig, hval]
    rfl

theorem orZero_some (k : Int) : orZero (some k) = k := by
  show (if k = 0 then 0 else k) = k
  split_ifs with h
  · exact h.symm
  · rfl

theorem parseInt_of_startsWithoutNumber (s : String) (h : startsWithoutNumber s = true) :
    parseInt s = none := by
  unfold startsWithoutNumber at h
  unfold parseInt
  generalize s.data.dropWhile isStrWhiteSpaceChar = S at h
  cases S with
  | nil => simp
  | cons c t =>
    simp only [List.head?, Bool.and_eq_true, bne_iff_ne, ne_eq, Option.isNone_iff_eq_none] at h
    obtain ⟨⟨hplus, hminus⟩, hdig⟩ := h
    have hzero : c ≠ '0' := by
      intro hc; rw [hc] at hdig; exact absurd hdig (by decide)
    simp only [List.head?, Option.some.injEq, hplus, hminus, or_self, if_false]
    have hm : (match c :: t with
      | '0' :: 'x' :: rest => ((16 : Nat), rest)
      | '0' :: 'X' :: rest => (16, rest)
      | _ => (10, c :: t)) = (10, c :: t) := by
      split
      · next heq => exact absurd (List.cons.inj heq).1 hzero
      · next heq => exact absurd (List.cons.inj heq).1 hzero
      · rfl
    rw [hm]
    simp [List.takeWhile, hdig]

theorem loadBestScore_of_entry (ls : Storage) (s : String) (hr : ls.getItemThrows = false)
    (hs : ls.items.lookup bestScoreKey = some s) : loadBestScore ls = orZero (parseInt s) := by
  simp [loadBestScore, Storage.getItem, hr, hs]

theorem numberToString_small (b : Int) (h : b.natAbs < 10 ^ 21) :
    numberToString b = toString b := by
  unfold numberToString
  rw [if_pos h]

theorem loadBestScore_saveLoaded (g : ColorMemoryGame)
    (h : (loadBestScore g.localStorage).natAbs < 10 ^ 21) :
    loadBestScore (saveLoaded g).localStorage = loadBestScore g.localStorage := by
  unfold saveLoaded saveBestScore
  simp only [ColorMemoryGame.emit, Storage.setItem]
  cases hw : g.localStorage.setItemThrows
  · simp only [Bool.false_eq_true, if_false]
    cases hr : g.localStorage.getItemThrows
    · refine Eq.trans (loadBestScore_of_entry _
        (numberToString (loadBestScore g.localStorage)) rfl (lookup_setEntry _ _ _)) ?_
      rw [numberToString_small _ h, parseInt_toString_int, orZero_some]
    · simp [loadBestScore, Storage.getItem, hr]
  · simp only [if_true]

theorem saveBestScore_saveLoaded (g : ColorMemoryGame) :
    (saveBestScore (saveLoaded g)).localStorage = (saveLoaded g).localStorage := by
  unfold saveLoaded saveBestScore
  simp only [ColorMemoryGame.emit, Storage.setItem]
  cases hw : g.localStorage.setItemThrows
  · simp [setEntry_idem]
  · simp [hw]

/-! ## The claims -/

/-- C1: when `isPlaying` is false or `isShowingSequence` is true, `handleButtonClick` returns
the state it was given, for every colour and frequency.  The state includes the two
sequences, both scores, both flags, the store, the pending `nextRound` timers and the log
of calls, so `gameOver` is not run and no `nextRound` is scheduled. -/
theorem handleButtonClick_noop (g : ColorMemoryGame) (color : String)
    (frequency : Frequency) (h : g.isPlaying = false ∨ g.isShowingSequence = true) :
    handleButtonClick g color frequency = g :=
  handleButtonClick_of_guard g color frequency h

theorem handleButtonClick_noop_witness :
    (ColorMemoryGame.new emptyStore).isPlaying = false ∧
      handleButtonClick (ColorMemoryGame.new emptyStore) "red" 440 =
        ColorMemoryGame.new emptyStore :=
  ⟨rfl, handleButtonClick_noop _ "red" 440 (Or.inl rfl)⟩

/-- C4: in every state reached from the constructor by calls of `startGame`, `nextRound`,
`handleButtonClick` and ends of `showSequence`, a call of `handleButtonClick` leaves `score`
as it was or adds exactly 1, and when it adds 1 then `playerSequence` equals `sequence`
after the call; `nextRound`, `showSequence`, its end and `gameOver` keep `score`, and
`startGame` makes it 0. -/
theorem score_only_on_full_reproduction (ls : Storage) (events : List Event)
    (color : String) (frequency : Frequency) :
    let g := run (ColorMemoryGame.new ls) events
    let g1 := handleButtonClick g color frequency
    (g1.score = g.score ∨ g1.score = g.score + 1) ∧
      (g1.score = g.score + 1 → g1.playerSequence = g1.sequence) ∧
      (∀ r, (nextRound g r).score = g.score) ∧
      (showSequence g).score = g.score ∧
      (showSequenceEnd g).score = g.score ∧
      (gameOver g).score = g.score ∧
      (∀ r, (startGame g r).score = 0) := by
  intro g g1
  have hinv : Inv g := inv_run events _ (inv_new ls)
  refine ⟨?_, ?_, fun _ => rfl, rfl, rfl, gameOver_score g, fun _ => rfl⟩
  · rcases handleButtonClick_score_cases g color frequency with h | h
    · exact Or.inl h
    · exact Or.inr h.1
  · intro h1
    rcases handleButtonClick_score_cases g color frequency with h | h
    · have h2 : g.score = g.score + 1 := h.symm.trans h1
      omega
    · obtain ⟨_, hp, hm, hlen, hps, hseq⟩ := h
      have hpre2 := arrayGet_extends_input (hinv.1 hp) hm
      show (handleButtonClick g color frequency).playerSequence =
        (handleButtonClick g color frequency).sequence
      rw [hps, hseq]
      exact hpre2.eq_of_length (by simpa using hlen)

theorem score_only_on_full_reproduction_witness :
    (handleButtonClick (run (ColorMemoryGame.new emptyStore)
        [.startGame 0, .showSequenceEnd]) "red" 440).playerSequence =
      (handleButtonClick (run (ColorMemoryGame.new emptyStore)
        [.startGame 0, .showSequenceEnd]) "red" 440).sequence :=
  (score_only_on_full_reproduction emptyStore [.startGame 0, .showSequenceEnd] "red" 440).2.1
    (by
      simp only [run, List.foldl, step, startGame, nextRound, addToSequence_zero]
      decide)

/-- C6, the failing run: a game is started with the cue red, the presentation ends, the
player clicks red (the round is complete and `nextRound` is scheduled) and clicks red again
before the timer fires.  Then `playerSequence` has two elements and `sequence` has one. -/
theorem extra_click_exceeds_sequence :
    (run (ColorMemoryGame.new emptyStore)
        [.startGame 0, .showSequenceEnd, .handleButtonClick "red" 440,
          .handleButtonClick "red" 440]).sequence = [some "red"] ∧
      (run (ColorMemoryGame.new emptyStore)
        [.startGame 0, .showSequenceEnd, .handleButtonClick "red" 440,
          .handleButtonClick "red" 440]).playerSequence = [some "red", some "red"] ∧
      (run (ColorMemoryGame.new emptyStore)
        [.startGame 0, .showSequenceEnd, .handleButtonClick "red" 440]).nextRoundTimers = 1 ∧
      (run (ColorMemoryGame.new emptyStore)
        [.startGame 0, .showSequenceEnd, .handleButtonClick "red" 440,
          .handleButtonClick "red" 440]).isPlaying = false := by
  simp only [run, List.foldl, step, startGame, nextRound, addToSequence_zero]
  decide

/-- C2: in a state with `isPlaying` true and `isShowingSequence` false, a click on a colour
that differs from `sequence[playerSequence.length]` ends the session at once: `isPlaying`
becomes false, `score` and `sequence` stay, no `nextRound` is scheduled, the game-over
overlay is shown with the score held before the call, and after any further events other
than `startGame` the game is still not playing and every `handleButtonClick` returns the
state unchanged. -/
theorem mismatch_ends_session (g : ColorMemoryGame) (color : String) (frequency : Frequency)
    (hp : g.isPlaying = true) (hs : g.isShowingSequence = false)
    (hm : some color ≠ arrayGet g.sequence g.playerSequence.length) :
    (handleButtonClick g color frequency).isPlaying = false ∧
      (handleButtonClick g color frequency).score = g.score ∧
      (handleButtonClick g color frequency).sequence = g.sequence ∧
      (handleButtonClick g color frequency).nextRoundTimers = g.nextRoundTimers ∧
      (handleButtonClick g color frequency).log.getLast? =
        some (.showGameOverModal (decide (g.bestScore < g.score)) g.score) ∧
      ∀ events : List Event, (∀ e ∈ events, e.isStartGame = false) →
        (run (handleButtonClick g color frequency) events).isPlaying = false ∧
        ∀ (c : String) (f : Frequency),
          handleButtonClick (run (handleButtonClick g color frequency) events) c f =
            run (handleButtonClick g color frequency) events := by
  have hgo : handleButtonClick g color frequency = gameOver (afterPush g color frequency) := by
    rw [handleButtonClick_accepted g color frequency hp hs, if_pos hm]
  have hstop : (handleButtonClick g color frequency).isPlaying = false := by
    rw [hgo]; exact gameOver_isPlaying _
  refine ⟨hstop, ?_, ?_, ?_, ?_, ?_⟩
  · rw [hgo, gameOver_score]; rfl
  · rw [hgo, gameOver_sequence]; rfl
  · rw [hgo, gameOver_nextRoundTimers]; rfl
  · rw [hgo, gameOver_log_getLast]; rfl
  · intro events he
    have h := run_not_playing events _ hstop he
    exact ⟨h, fun c f => handleButtonClick_of_guard _ c f (Or.inl h)⟩

theorem mismatch_ends_session_witness :
    (handleButtonClick (handleButtonClick redBlueGame "red" 440) "green" 440).isPlaying = false ∧
      (handleButtonClick (handleButtonClick redBlueGame "red" 440) "green" 440).score = 0 ∧
      (handleButtonClick (handleButtonClick redBlueGame "red" 440) "green" 440).log.getLast? =
        some (.showGameOverModal false 0) :=
  have h := mismatch_ends_session (handleButtonClick redBlueGame "red" 440) "green" 440
    (by decide) (by decide) (by decide)
  ⟨h.1, h.2.1, h.2.2.2.2.1⟩

/-- C5: after `gameOver()` the field `bestScore` is the larger of the old `bestScore` and
`score`, so it is never lowered; `saveBestScore` writes to the store exactly when `score`
exceeds the old `bestScore`, and what it writes under the best-score key is
`score.toString()`, the decimal digits of `score` (for a score below `10 ^ 21`).  When the
store accepts the write the entry then holds that text; otherwise the store is untouched. -/
theorem gameOver_records_best (g : ColorMemoryGame) :
    (gameOver g).bestScore = max g.bestScore g.score ∧
      g.bestScore ≤ (gameOver g).bestScore ∧
      storeWrites (gameOver g).log =
        storeWrites g.log ++
          (if g.bestScore < g.score then [(bestScoreKey, numberToString g.score)] else []) ∧
      (g.score.natAbs < 10 ^ 21 → numberToString g.score = toString g.score) ∧
      (g.bestScore < g.score → g.localStorage.setItemThrows = false →
        (gameOver g).localStorage.items.lookup bestScoreKey =
          some (numberToString g.score)) ∧
      (¬ g.bestScore < g.score → (gameOver g).localStorage = g.localStorage) := by
  refine ⟨gameOver_bestScore_eq g, ?_, gameOver_storeWrites g, ?_,
    gameOver_localStorage_of_record g, gameOver_localStorage_of_no_record g⟩
  · rw [gameOver_bestScore_eq]; exact le_max_left _ _
  · intro h
    unfold numberToString
    rw [if_pos h]

theorem gameOver_records_best_witness :
    numberToString ({ redBlueGame with score := 3 } : ColorMemoryGame).score = "3" ∧
      (gameOver { redBlueGame with score := 3 }).localStorage.items.lookup bestScoreKey =
        some "3" :=
  have h := gameOver_records_best { redBlueGame with score := 3 }
  ⟨(h.2.2.2.1 (by decide)).trans (by decide), (h.2.2.2.2.1 (by decide) (by decide)).trans (by decide)⟩

/-- C7: for every state and every draw `r` with `0 ≤ r < 1`, the index `floor(r * 4)` lies
within the array `colors`, and `nextRound()` empties `playerSequence`, appends exactly one
of red, blue, green, yellow to `sequence`, leaves every earlier element of `sequence` in
place, and leaves `score`, `bestScore` and `isPlaying` unchanged. -/
theorem nextRound_appends_one_colour (g : ColorMemoryGame) (r : ℚ) (h0 : 0 ≤ r) (h1 : r < 1) :
    (0 ≤ Int.floor (r * (colors.length : ℚ)) ∧
      Int.floor (r * (colors.length : ℚ)) < (colors.length : Int)) ∧
    (∃ c, c ∈ ["red", "blue", "green", "yellow"] ∧
      (nextRound g r).sequence = g.sequence ++ [some c]) ∧
    (nextRound g r).playerSequence = [] ∧
    (∀ i, i < g.sequence.length →
      arrayGet (nextRound g r).sequence i = arrayGet g.sequence i) ∧
    (nextRound g r).score = g.score ∧
    (nextRound g r).bestScore = g.bestScore ∧
    (nextRound g r).isPlaying = g.isPlaying := by
  obtain ⟨c, hc, hget⟩ := randomColor_mem r h0 h1
  refine ⟨floor_index_bounds r h0 h1, ⟨c, hc, ?_⟩, rfl, ?_, rfl, rfl, rfl⟩
  · simp only [nextRound, addToSequence, showSequence, ColorMemoryGame.emit, hget]
  · intro i hi
    simp only [nextRound, addToSequence, showSequence, ColorMemoryGame.emit, arrayGet]
    rw [List.get?_eq_getElem?, List.get?_eq_getElem?, List.getElem?_append_left hi]

theorem nextRound_appends_one_colour_witness :
    (0 : ℚ) ≤ 1 / 2 ∧ (1 / 2 : ℚ) < 1 ∧
      (nextRound redBlueGame (1 / 2)).playerSequence = [] ∧
      (nextRound redBlueGame (1 / 2)).score = redBlueGame.score :=
  have h := nextRound_appends_one_colour redBlueGame (1 / 2) (by norm_num) (by norm_num)
  ⟨by norm_num, by norm_num, h.2.2.1, h.2.2.2.2.1⟩

/-- The closure `rateLimitCheck` returns false and leaves the state, `lastClickTime` included,
unchanged when `now - lastClickTime < 100`; otherwise it returns true and sets
`lastClickTime` to `now`.  In the listeners that consult it a rejected event does not reach
`startGame` or `handleButtonClick`: the click on the start button, the click and the key
press on a colour button return the state unchanged, and `handleKeyboard` at most closes
the overlay. -/
theorem rateLimitCheck_gate (g : ColorMemoryGame) (now : Int) :
    (now - g.lastClickTime < 100 → rateLimitCheck g now = (false, g)) ∧
      (¬ now - g.lastClickTime < 100 →
        rateLimitCheck g now = (true, { g with lastClickTime := now })) ∧
      (now - g.lastClickTime < 100 →
        (∀ random, onStartClick g now random = g) ∧
        (∀ color sound, onColorClick g now color sound = g) ∧
        (∀ key color sound, onColorKeydown g now key color sound = g) ∧
        (∀ key sound, handleKeyboard g now key sound = g ∨
          handleKeyboard g now key sound = closeModal g)) := by
  refine ⟨fun h => ?_, fun h => ?_, fun h => ⟨fun r => ?_, fun c s => ?_, fun k c s => ?_,
    fun k s => ?_⟩⟩
  · simp [rateLimitCheck, h]
  · simp [rateLimitCheck, h]
  · simp [onStartClick, rateLimitCheck, h]
  · simp [onColorClick, rateLimitCheck, h]
  · simp [onColorKeydown, rateLimitCheck, h]
  · unfold handleKeyboard
    split
    · exact Or.inr rfl
    · split
      · exact Or.inl rfl
      · split
        · exact Or.inl rfl
        · left; simp [rateLimitCheck, h]

theorem rateLimitCheck_gate_witness :
    (rateLimitCheck (ColorMemoryGame.new emptyStore) 1000).1 = true ∧
      rateLimitCheck (rateLimitCheck (ColorMemoryGame.new emptyStore) 1000).2 1050 =
        (false, (rateLimitCheck (ColorMemoryGame.new emptyStore) 1000).2) ∧
      onColorClick (rateLimitCheck (ColorMemoryGame.new emptyStore) 1000).2 1050 "red" 440 =
        (rateLimitCheck (ColorMemoryGame.new emptyStore) 1000).2 :=
  have h := rateLimitCheck_gate (rateLimitCheck (ColorMemoryGame.new emptyStore) 1000).2 1050
  ⟨by decide, h.1 (by decide), (h.2.2 (by decide)).2.1 "red" 440⟩

/-- C8, the failing run: a colour click is accepted at time 5000 and ends the game.  At
time 5050 `rateLimitCheck` rejects, and a click on the start button leaves the state as it
is; but a click on Play Again at that time is honoured without `rateLimitCheck` being
consulted (`lastClickTime` stays 5000): it schedules `startGame`, and when the timer fires
a new game is being played. -/
theorem play_again_not_rate_limited :
    gameOverAt5000.isPlaying = false ∧
      gameOverAt5000.lastClickTime = 5000 ∧
      gameOverAt5000.modalHidden = false ∧
      rateLimitCheck gameOverAt5000 5050 = (false, gameOverAt5000) ∧
      onStartClick gameOverAt5000 5050 0 = gameOverAt5000 ∧
      (closeModalAndRestart gameOverAt5000).startGameTimers = 1 ∧
      (closeModalAndRestart gameOverAt5000).lastClickTime = 5000 ∧
      (fireStartGame (closeModalAndRestart gameOverAt5000) 0).isPlaying = true ∧
      (fireStartGame (closeModalAndRestart gameOverAt5000) 0).sequence = [some "red"] ∧
      (fireStartGame (closeModalAndRestart gameOverAt5000) 0).score = 0 := by
  have hstate : gameOverAt5000.isPlaying = false ∧ gameOverAt5000.lastClickTime = 5000 ∧
      gameOverAt5000.modalHidden = false ∧ gameOverAt5000.startGameTimers = 0 := by
    simp only [gameOverAt5000, onStartClick, rateLimitCheck, startGame, nextRound,
      addToSequence_zero]
    decide
  obtain ⟨h1, h2, h3, h4⟩ := hstate
  have hlate : (5050 : Int) - gameOverAt5000.lastClickTime < 100 := by
    rw [h2]; decide
  have htimers : (closeModalAndRestart gameOverAt5000).startGameTimers = 1 := by
    show gameOverAt5000.startGameTimers + 1 = 1
    rw [h4]
  refine ⟨h1, h2, h3, (rateLimitCheck_gate gameOverAt5000 5050).1 hlate,
    ((rateLimitCheck_gate gameOverAt5000 5050).2.2 hlate).1 0, htimers, h2, ?_, ?_, ?_⟩
  · unfold fireStartGame
    rw [htimers]; rfl
  · unfold fireStartGame
    rw [htimers]
    simp only [startGame, nextRound, addToSequence_zero]
    rfl
  · unfold fireStartGame
    rw [htimers]; rfl

/-- C3: a game is started, and in each of `n` successive rounds the presentation ends, the
player clicks the elements of the current sequence in order and the scheduled `nextRound`
runs, with any random draws in `[0, 1)`.  Afterwards `sequence` has `n + 1` elements and
`score` is `n`. -/
theorem correct_rounds (g : ColorMemoryGame) (sound : String → Frequency) (r0 : ℚ)
    (rs : List ℚ) (h0 : 0 ≤ r0 ∧ r0 < 1) (hrs : ∀ r ∈ rs, 0 ≤ r ∧ r < 1) :
    (playRounds (startGame g r0) sound rs).sequence.length = rs.length + 1 ∧
      (playRounds (startGame g r0) sound rs).score = rs.length := by
  have h := betweenRounds_playRounds sound rs (startGame g r0) 0
    (betweenRounds_startGame g r0 h0.1 h0.2) hrs
  obtain ⟨_, _, ⟨strs, hseq, hlen⟩, hscore⟩ := h
  constructor
  · rw [hseq, List.length_map, hlen]; omega
  · rw [hscore]; simp

theorem correct_rounds_witness :
    (playRounds (startGame (ColorMemoryGame.new emptyStore) 0) (fun _ => 440) [0]).sequence.length
        = 2 ∧
      (playRounds (startGame (ColorMemoryGame.new emptyStore) 0) (fun _ => 440) [0]).score = 1 :=
  correct_rounds (ColorMemoryGame.new emptyStore) (fun _ => 440) 0 [0]
    ⟨le_refl _, by norm_num⟩ (by simp)

/-- C9, the value the claim gets wrong: the text `12abc` is the decimal string of no
natural number, the store can be read, and `loadBestScore` returns 12 and not 0. -/
theorem loadBestScore_numeric_start :
    (∀ n : Nat, (storeWith "12abc").items.lookup bestScoreKey ≠ some (toString n)) ∧
      (storeWith "12abc").getItemThrows = false ∧
      loadBestScore (storeWith "12abc") = 12 ∧
      loadBestScore (storeWith "12abc") ≠ 0 := by
  refine ⟨?_, rfl, by decide, by decide⟩
  intro n hn
  have h1 : "12abc" = toString n := by
    have h0 : (storeWith "12abc").items.lookup bestScoreKey = some "12abc" := by decide
    rw [h0] at hn
    exact Option.some.inj hn
  have h2 : parseInt "12abc" = some (n : Int) := by
    rw [h1]; exact parseInt_toString_nat n
  have h3 : parseInt "12abc" = some 12 := by decide
  rw [h3] at h2
  have h4 : n = 12 := by
    have := Option.some.inj h2
    omega
  rw [h4] at h1
  exact absurd h1 (by decide)

/-- C9 as amended: `loadBestScore()` returns `n` when the entry under the key is the decimal
string of a natural number `n` up to `2 ^ 53` (where a JavaScript number holds the integer
exactly); it returns 0 when the key is absent, when reading the store throws, and when the
stored text has no number at its start (after leading white space it is empty or begins
with a character that is neither a sign nor a digit). -/
theorem loadBestScore_spec (ls : Storage) :
    (∀ n : Nat, n ≤ 2 ^ 53 → ls.getItemThrows = false →
        ls.items.lookup bestScoreKey = some (toString n) → loadBestScore ls = n) ∧
      (ls.getItemThrows = false → ls.items.lookup bestScoreKey = none →
        loadBestScore ls = 0) ∧
      (ls.getItemThrows = true → loadBestScore ls = 0) ∧
      (∀ s : String, ls.getItemThrows = false → ls.items.lookup bestScoreKey = some s →
        startsWithoutNumber s = true → loadBestScore ls = 0) := by
  refine ⟨fun n _ hr hs => ?_, fun hr hs => ?_, fun hr => ?_, fun s hr hs hn => ?_⟩
  · rw [loadBestScore_of_entry ls _ hr hs, parseInt_toString_nat, orZero_some]
  · have hnull : parseInt "null" = none := by decide
    simp [loadBestScore, Storage.getItem, hr, hs, hnull, orZero]
  · simp [loadBestScore, Storage.getItem, hr]
  · rw [loadBestScore_of_entry ls _ hr hs, parseInt_of_startsWithoutNumber s hn]
    rfl

theorem loadBestScore_spec_witness :
    loadBestScore (storeWith "42") = 42 ∧ loadBestScore emptyStore = 0 ∧
      loadBestScore { emptyStore with getItemThrows := true } = 0 ∧
      loadBestScore (storeWith "abc") = 0 :=
  ⟨(loadBestScore_spec (storeWith "42")).1 42 (by norm_num) rfl (by decide),
    (loadBestScore_spec emptyStore).2.1 rfl rfl,
    (loadBestScore_spec { emptyStore with getItemThrows := true }).2.2.1 rfl,
    (loadBestScore_spec (storeWith "abc")).2.2.2 "abc" rfl (by decide)
      (by decide)⟩

/-- C10, the store content the claim gets wrong: the entry is `10 ^ 21` in decimal digits.
The first `loadBestScore()` returns `10 ^ 21`, `saveBestScore()` writes `1e+21`, and the
following `loadBestScore()` returns 1. -/
theorem save_load_large_value :
    loadBestScore (storeWith "1000000000000000000000") = 10 ^ 21 ∧
      (saveLoaded (ColorMemoryGame.new (storeWith "1000000000000000000000"))).localStorage =
        storeWith "1e+21" ∧
      loadBestScore
        (saveLoaded (ColorMemoryGame.new (storeWith "1000000000000000000000"))).localStorage =
          1 := by
  decide

/-- C10 as amended: for every store whose loaded value is at most `2 ^ 53` in magnitude
(where a JavaScript number holds the integer exactly), setting `bestScore` to
`loadBestScore()` and calling `saveBestScore()` leaves the value that `loadBestScore()`
returns unchanged; and for every store, repeating the save leaves the store as it was
after the first save. -/
theorem save_load_roundtrip (g : ColorMemoryGame) :
    ((loadBestScore g.localStorage).natAbs ≤ 2 ^ 53 →
        loadBestScore (saveLoaded g).localStorage = loadBestScore g.localStorage) ∧
      (saveBestScore (saveLoaded g)).localStorage = (saveLoaded g).localStorage := by
  refine ⟨fun h => loadBestScore_saveLoaded g ?_, saveBestScore_saveLoaded g⟩
  have : (2 : Nat) ^ 53 < 10 ^ 21 := by norm_num
  omega

theorem save_load_roundtrip_witness :
    loadBestScore (saveLoaded (ColorMemoryGame.new (storeWith "12abc"))).localStorage = 12 ∧
      (saveLoaded (ColorMemoryGame.new (storeWith "12abc"))).localStorage = storeWith "12" :=
  ⟨((save_load_roundtrip (ColorMemoryGame.new (storeWith "12abc"))).1 (by decide)).trans
      (by decide), by decide⟩

end ColorMemory
